import Mathlib

/-!
# vegeta: streaming aggregation and windowed reporting

A shallow embedding of `lib/histogram.go`, `ioutil/reader.go`, `lib/dumpers.go`,
`lib/reporters.go`, `dump.go` and `report.go`, followed by the properties proved
about it.

Conventions.
* `time.Duration` and `UnixNano` values are `Int` (no arithmetic is done on them).
* `uint64` counters are `Nat` with every increment reduced modulo `2 ^ 64`.
* A Go string / `[]byte` is a `List Char`, one list element per byte.
* A Go `error` is a `GoError`; a Go panic is `none` (or an explicit `panic` outcome).
* Standard-library functions (`strings.TrimSpace`, `time.ParseDuration`, the JSON
  encoder) and floating-point results are parameters of the definitions that use them.
-/

namespace Vegeta

/-- Number of values of a Go `uint64`. -/
def u64 : Nat := 2 ^ 64

/-- `time.Duration`: a signed count of nanoseconds. -/
abbrev Duration := Int

/-- A Go string or byte slice, one element per byte. -/
abbrev GoString := List Char

/-- The error values the embedded code returns or passes on. -/
inductive GoError where
  /-- `io.EOF`, the decoder's end-of-stream signal. -/
  | EOF
  /-- a decoding failure reported by the decoder -/
  | decode (detail : Nat)
  /-- a failure of an output sink or of opening a file -/
  | io (detail : Nat)
  /-- a failure of `time.ParseDuration` -/
  | parse (detail : Nat)
  /-- `fmt.Errorf("bad buckets: %s", value)` -/
  | badBuckets (value : GoString)
  /-- `fmt.Errorf("bad reporter: %s", reporter)` -/
  | badReporter (reporter : GoString)
  /-- `fmt.Errorf("unsupported dumper: %s", dumper)` -/
  | unsupportedDumper (dumper : GoString)
  deriving DecidableEq, Repr

/-- Modelled from the spec: the `Result` record (its declaration, `lib/results.go`,
is not among the sources). `Timestamp` holds `Timestamp.UnixNano()`. -/
structure Result where
  Timestamp : Int
  Code : Nat
  Latency : Duration
  BytesOut : Nat
  BytesIn : Nat
  Error : GoString
  deriving DecidableEq, Repr

/-! ## lib/histogram.go -/

/-- `type Buckets []time.Duration` -/
abbrev Buckets := List Duration

/-- `type Histogram struct { Buckets; Counts []uint64; Total uint64 }` -/
structure Histogram where
  Buckets : Buckets
  Counts : List Nat
  Total : Nat
  deriving DecidableEq, Repr

/-- `NewHistogram`: the counts are `make([]uint64, len(bs))`, the total is zero. -/
def NewHistogram (bs : Buckets) : Histogram :=
  { Buckets := bs, Counts := List.replicate bs.length 0, Total := 0 }

/-- The `for ; i < len(h.Buckets)-1; i++` loop of `Histogram.Update`.
`bucketLoop rest L i` is the loop entered with loop variable `i`, where `rest` is
`h.Buckets[i:]`: its first two elements are `h.Buckets[i]` and `h.Buckets[i+1]`, and
the loop condition `i < len(h.Buckets)-1` says that `rest` has at least two elements.
The value is that of `i` when the loop is left. -/
def bucketLoop : Buckets → Duration → Nat → Nat
  | b :: b' :: rest, L, i =>
    if b ≤ L ∧ L < b' then i else bucketLoop (b' :: rest) L (i + 1)
  | _, _, i => i

/-- `Histogram.Update`: `none` is the index-out-of-range panic of `h.Counts[i]++`. -/
def Histogram.Update (h : Histogram) (r : Result) : Option Histogram :=
  let i := bucketLoop h.Buckets r.Latency 0
  if hi : i < h.Counts.length then
    some { h with
      Total := (h.Total + 1) % u64
      Counts := h.Counts.set i ((h.Counts[i] + 1) % u64) }
  else none

/-- Applying `Histogram.Update` to each record in turn; a panic ends the run. -/
def updateAll : Histogram → List Result → Option Histogram
  | h, [] => some h
  | h, r :: rs => (h.Update r).bind (fun h' => updateAll h' rs)

/-- `Buckets.Nth`, with the `String()` renderings left as the durations themselves
and `"+Inf"` as `none`; the outer `none` is the index-out-of-range panic. -/
def Buckets.Nth (bs : Buckets) (i : Nat) : Option (Duration × Option Duration) :=
  if h : i < bs.length then
    if h1 : i + 1 < bs.length then some (bs[i], some bs[i + 1]) else some (bs[i], none)
  else none

/-- `strings.Split(s, ",")`: the pieces of `s` between commas, at least one piece. -/
def splitComma : GoString → List GoString
  | [] => [[]]
  | c :: cs =>
    if c = ',' then [] :: splitComma cs
    else
      match splitComma cs with
      | [] => [[c]]
      | x :: xs => (c :: x) :: xs

/-- The `for _, v := range strings.Split(...)` loop of `Buckets.UnmarshalText`, over
the pieces not yet visited; `trimSpace` is `strings.TrimSpace` and `parseDuration` is
`time.ParseDuration` (standard library, taken as parameters). The result is the
error returned from inside the loop, if any, and `*bs`. -/
def unmarshalLoop (trimSpace : GoString → GoString)
    (parseDuration : GoString → Except GoError Duration) :
    List GoString → Buckets → Option GoError × Buckets
  | [], bs => (none, bs)
  | v :: vs, bs =>
    match parseDuration (trimSpace v) with
    | .error err => (some err, bs)
    | .ok d => unmarshalLoop trimSpace parseDuration vs (bs ++ [d])

/-- `value[1:len(value)-1]` -/
def inner (value : GoString) : GoString :=
  (value.take (value.length - 1)).drop 1

/-- `Buckets.UnmarshalText`: the returned error (`none` is `nil`) and the value of
`*bs` afterwards. -/
def Buckets.UnmarshalText (trimSpace : GoString → GoString)
    (parseDuration : GoString → Except GoError Duration)
    (bs : Buckets) (value : GoString) : Option GoError × Buckets :=
  if value.length < 2 ∨ value.head? ≠ some '[' ∨ value.getLast? ≠ some ']' then
    (some (GoError.badBuckets value), bs)
  else
    match unmarshalLoop trimSpace parseDuration (splitComma (inner value)) bs with
    | (some err, bs') => (some err, bs')
    | (none, bs') =>
      if bs'.length = 0 then (some (GoError.badBuckets value), bs') else (none, bs')

/-! ## ioutil/reader.go -/

/-- The state behind the reader returned by `RoundRobinReader(rs...)`: the captured
counter `robin` and the sources, each in its current state. -/
structure RoundRobin (σ : Type) where
  robin : Nat
  rs : List σ

/-- `RoundRobinReader(rs...)`: the counter starts at zero. -/
def RoundRobinReader {σ : Type} (rs : List σ) : RoundRobin σ :=
  { robin := 0, rs := rs }

/-- The index expression `atomic.AddUint64(&robin, 1) % uint64(len(rs))` evaluated
when the counter holds `robin`: `AddUint64` returns the new value of the counter. -/
def RoundRobin.target {σ : Type} (s : RoundRobin σ) : Nat :=
  ((s.robin + 1) % u64) % s.rs.length

/-- One `Read` call on the round-robin reader. `read` is the `Read` method of a
source (its result and its next state). `none` is the division-by-zero panic of an
empty source list. -/
def RoundRobin.Read {σ ρ : Type} (read : σ → ρ × σ) (s : RoundRobin σ) :
    Option (ρ × RoundRobin σ) :=
  if h : s.rs.length = 0 then none
  else
    have hlt : s.target < s.rs.length := Nat.mod_lt _ (Nat.pos_of_ne_zero h)
    let out := read (s.rs.get ⟨s.target, hlt⟩)
    some (out.1, { robin := (s.robin + 1) % u64, rs := s.rs.set s.target out.2 })

/-- The results of `k` successive `Read` calls, in order, and the state after them. -/
def RoundRobin.reads {σ ρ : Type} (read : σ → ρ × σ) :
    Nat → RoundRobin σ → Option (List ρ × RoundRobin σ)
  | 0, s => some ([], s)
  | k + 1, s =>
    match s.Read read with
    | none => none
    | some (out, s') =>
      match RoundRobin.reads read k s' with
      | none => none
      | some (outs, s'') => some (out :: outs, s'')

/-! ## lib/decoder.go -/

/-- A `Decoder` that yields the records of `records` one per call and then fails
with `final` (`GoError.EOF` at the end of the stream, or a decoding failure). In the
loops below, matching `records` against `[]` and `r :: rs` is one call `dec(&r)`. -/
structure Feed where
  records : List Result
  final : GoError
  deriving DecidableEq, Repr

/-- What a function of type `Dumper` or `Reporter` does when called: it returns an
error value (`none` is `nil`) or it panics. -/
inductive Exit where
  | returned (err : Option GoError)
  | panicked
  deriving DecidableEq, Repr

/-! ## lib/dumpers.go -/

/-- `%d` applied to an unsigned value. -/
def fmtNat (n : Nat) : GoString := Nat.toDigits 10 n

/-- `%d` applied to a signed value. -/
def fmtInt : Int → GoString
  | Int.ofNat n => fmtNat n
  | Int.negSucc n => '-' :: fmtNat (n + 1)

/-- The text produced by the `fmt.Fprintf` call of `NewCSVDumper` for one record:
format `"%d,%d,%d,%d,%d,\"%s\"\n"`. -/
def csvLine (r : Result) : GoString :=
  fmtInt r.Timestamp ++ [','] ++ fmtNat r.Code ++ [','] ++ fmtInt r.Latency ++ [',']
    ++ fmtNat r.BytesOut ++ [','] ++ fmtNat r.BytesIn ++ [',', '"'] ++ r.Error
    ++ ['"', '\n']

/-- The `for` loop of the dumper returned by `NewCSVDumper(dec)`, over the records the
decoder still holds. `write w p` is `w.Write(p)`: the error it returns (`none` is
`nil`) and the writer afterwards. -/
def csvLoop {ω : Type} (write : ω → GoString → Option GoError × ω) :
    List Result → GoError → ω → Exit × ω
  | [], final, w => (Exit.returned (some final), w)
  | r :: rs, final, w =>
    match write w (csvLine r) with
    | (some err, w') => (Exit.returned (some err), w')
    | (none, w') => csvLoop write rs final w'

/-- `NewCSVDumper(dec)(w)` -/
def NewCSVDumper {ω : Type} (dec : Feed) (write : ω → GoString → Option GoError × ω)
    (w : ω) : Exit × ω :=
  csvLoop write dec.records dec.final w

/-- The `for` loop of the dumper returned by `NewJSONDumper(dec)`; `enc w r` is
`json.NewEncoder(w).Encode(r)` (standard library, taken as a parameter). -/
def jsonLoop {ω : Type} (enc : ω → Result → Option GoError × ω) :
    List Result → GoError → ω → Exit × ω
  | [], final, w => (Exit.returned (some final), w)
  | r :: rs, final, w =>
    match enc w r with
    | (some err, w') => (Exit.returned (some err), w')
    | (none, w') => jsonLoop enc rs final w'

/-- `NewJSONDumper(dec)(w)` -/
def NewJSONDumper {ω : Type} (dec : Feed) (enc : ω → Result → Option GoError × ω)
    (w : ω) : Exit × ω :=
  jsonLoop enc dec.records dec.final w

/-- A writer that never fails and keeps what was written (like `bytes.Buffer`). -/
def bufferWrite {ι : Type} (w : List ι) (p : List ι) : Option GoError × List ι :=
  (none, w ++ p)

/-- A sink that never fails and keeps the items written to it, in order. -/
def logWrite {ι : Type} (w : List ι) (x : ι) : Option GoError × List ι :=
  (none, w ++ [x])

/-! ## lib/reporters.go -/

/-- The reporter loop from the moment no tick arrives any more: every `select` runs
its `default` case, `dec(&r)` followed by the aggregate's `Update`. -/
def defaultLoop {α ω : Type} (update : α → Result → Option α) :
    List Result → GoError → α → ω → Exit × ω
  | [], final, _, w => (Exit.returned (some final), w)
  | r :: rs, final, a, w =>
    match update a r with
    | none => (Exit.panicked, w)
    | some a' => defaultLoop update rs final a' w

/-- The `for { select { case <-ticker.C: ... default: ... } }` loop shared by
`NewHistogramReporter`, `NewTextReporter` and `NewJSONReporter`.

* `sched` tells, for the successive executions of `select`, whether a tick is
  pending on `ticker.C` (`true`: the tick case runs, `false`: the `default` case
  runs); after the end of `sched` no tick arrives any more (`defaultLoop`).
* `update` is the aggregate's `Update` (`none`: it panics).
* `flush a w` is the body of the tick case: `some exit` if it leaves the function,
  `none` if the loop goes on; and the writer afterwards.
* The records and `final` are the decoder's, as in `Feed`.  -/
def selectLoop {α ω : Type} (update : α → Result → Option α)
    (flush : α → ω → Option Exit × ω) :
    List Bool → List Result → GoError → α → ω → Exit × ω
  | [], rs, final, a, w => defaultLoop update rs final a w
  | true :: sched, rs, final, a, w =>
    match flush a w with
    | (some exit, w') => (exit, w')
    | (none, w') => selectLoop update flush sched rs final a w'
  | false :: _, [], final, _, w => (Exit.returned (some final), w)
  | false :: sched, r :: rs, final, a, w =>
    match update a r with
    | none => (Exit.panicked, w)
    | some a' => selectLoop update flush sched rs final a' w

/-- One row of a histogram snapshot: the arguments of the row's `Fprintf` call.
`lo`, `hi` come from `Buckets.Nth`; the percentage and the bar are computed from
`count` and `total` in floating point and are not kept in the row. -/
structure HistRow where
  lo : Duration
  hi : Option Duration
  count : Nat
  total : Nat
  deriving DecidableEq, Repr

/-- The `for i, count := range h.Counts` loop of the tick case of
`NewHistogramReporter`, over the counts not yet visited, `i` being the loop index.

* `barLen count total` is `int(ratio*75)` for `ratio := float64(count) /
  float64(h.Total)`: floating-point arithmetic, taken as a parameter. With
  `h.Total = 0` the ratio is NaN or +Inf and the conversion is implementation-dependent
  (on amd64 it gives the most negative `int`).
* `strings.Repeat("#", n)` panics when `n` is negative, before the row is written.
* `write w row` is the row's `Fprintf` followed by `tw.Flush()`. -/
def histRowsLoop {ω : Type} (barLen : Nat → Nat → Int)
    (write : ω → HistRow → Option GoError × ω) (h : Histogram) :
    List Nat → Nat → ω → Option Exit × ω
  | [], _, w => (none, w)
  | count :: counts, i, w =>
    match h.Buckets.Nth i with
    | none => (some Exit.panicked, w)
    | some (lo, hi) =>
      if barLen count h.Total < 0 then (some Exit.panicked, w)
      else
        match write w { lo := lo, hi := hi, count := count, total := h.Total } with
        | (some err, w') => (some (Exit.returned (some err)), w')
        | (none, w') => histRowsLoop barLen write h counts (i + 1) w'

/-- The tick case of `NewHistogramReporter`. -/
def histFlush {ω : Type} (barLen : Nat → Nat → Int)
    (write : ω → HistRow → Option GoError × ω) (h : Histogram) (w : ω) :
    Option Exit × ω :=
  histRowsLoop barLen write h h.Counts 0 w

/-- `NewHistogramReporter(dec, bs, window)(w)`, the ticker being given by `sched` and
the floating-point bar length by `barLen` (see `histRowsLoop`). -/
def NewHistogramReporter {ω : Type} (barLen : Nat → Nat → Int) (dec : Feed)
    (bs : Buckets) (sched : List Bool) (write : ω → HistRow → Option GoError × ω)
    (w : ω) : Exit × ω :=
  selectLoop Histogram.Update (histFlush barLen write) sched dec.records dec.final
    (NewHistogram bs) w

/-- The tick case of `NewTextReporter` and of `NewJSONReporter`: the metrics are
written (`emit w m`: the `Fprintf` calls and `tw.Flush()`, or `enc.Encode(m)`), and an
error of the write is returned. -/
def metricsFlush {μ ω : Type} (emit : ω → μ → Option GoError × ω) (m : μ) (w : ω) :
    Option Exit × ω :=
  match emit w m with
  | (some err, w') => (some (Exit.returned (some err)), w')
  | (none, w') => (none, w')

/-- `NewTextReporter(dec, window)(w)`. The type `Metrics` (`μ`), its zero value `m0`
and `Metrics.Update` (`update`) are declared outside the sources and are parameters. -/
def NewTextReporter {μ ω : Type} (m0 : μ) (update : μ → Result → μ) (dec : Feed)
    (sched : List Bool) (emit : ω → μ → Option GoError × ω) (w : ω) : Exit × ω :=
  selectLoop (fun m r => some (update m r)) (metricsFlush emit) sched dec.records
    dec.final m0 w

/-- `NewJSONReporter(dec, window)(w)`, with the same parameters as `NewTextReporter`;
`emit` is `json.NewEncoder(w).Encode`. -/
def NewJSONReporter {μ ω : Type} (m0 : μ) (update : μ → Result → μ) (dec : Feed)
    (sched : List Bool) (emit : ω → μ → Option GoError × ω) (w : ω) : Exit × ω :=
  selectLoop (fun m r => some (update m r)) (metricsFlush emit) sched dec.records
    dec.final m0 w

/-! ## dump.go and report.go -/

/-- How `dump` and `report` end: with an error returned before any dumper or reporter
was called, with the panic of calling a `nil` function value, or by calling the
dumper or reporter named (whose result they return). -/
inductive Launch where
  | error (err : GoError)
  | nilCall
  | csvDumper
  | jsonDumper
  | textReporter
  | jsonReporter
  | plotReporter
  | histogramReporter (bs : Buckets)
  deriving DecidableEq, Repr

/-- The `for i, f := range files` loop of `dump` and `report`: the first error of
`file(f, false)`, if any. `file name create` is the repository's `file` helper
(declared outside the sources, a parameter): the error it returns, `none` for `nil`. -/
def openAll (file : GoString → Bool → Option GoError) : List GoString → Option GoError
  | [] => none
  | f :: fs =>
    match file f false with
    | some err => some err
    | none => openAll file fs

/-- `dump(dumper, inputs, output)` -/
def dump (file : GoString → Bool → Option GoError) (dumper inputs output : GoString) :
    Launch :=
  match openAll file (splitComma inputs) with
  | some err => Launch.error err
  | none =>
    match file output true with
    | some err => Launch.error err
    | none =>
      if dumper = "csv".toList then Launch.csvDumper
      else if dumper = "json".toList then Launch.jsonDumper
      else Launch.error (GoError.unsupportedDumper dumper)

/-- `report(reporter, inputs, output, window)`. The switch has no `default` case: when
no case matches, the variable `report` keeps its zero value `nil` and `report(out)`
is the call of a `nil` function. The text of the `bad buckets: '%s'` error is kept as
the bucket text alone. -/
def report (trimSpace : GoString → GoString)
    (parseDuration : GoString → Except GoError Duration)
    (file : GoString → Bool → Option GoError) (reporter inputs output : GoString) :
    Launch :=
  if reporter.length < 4 then Launch.error (GoError.badReporter reporter)
  else
    match openAll file (splitComma inputs) with
    | some err => Launch.error err
    | none =>
      match file output true with
      | some err => Launch.error err
      | none =>
        if reporter.take 4 = "text".toList then Launch.textReporter
        else if reporter.take 4 = "json".toList then Launch.jsonReporter
        else if reporter.take 4 = "plot".toList then Launch.plotReporter
        else if reporter.take 4 = "hist".toList then
          if reporter.length < 6 then Launch.error (GoError.badBuckets (reporter.drop 4))
          else
            match Buckets.UnmarshalText trimSpace parseDuration [] (reporter.drop 4) with
            | (some err, _) => Launch.error err
            | (none, bs) => Launch.histogramReporter bs
        else Launch.nilCall

/-! ## Specification-side definitions and sample inputs -/

/-- The state of a histogram over `bs` after `n` updates. -/
structure HistInv (bs : Buckets) (n : Nat) (h : Histogram) : Prop where
  buckets : h.Buckets = bs
  len : h.Counts.length = bs.length
  total : h.Total = n % u64
  summod : h.Counts.sum % u64 = n % u64
  sumexact : n < u64 → h.Counts.sum = n

/-- The spec's scenario: boundaries `[0, 100ms, 200ms]`. -/
def scenarioBuckets : Buckets := [0, 100000000, 200000000]

/-- A record with the given latency and nothing else of note. -/
def withLatency (L : Duration) : Result :=
  { Timestamp := 0, Code := 200, Latency := L, BytesOut := 0, BytesIn := 0, Error := [] }

/-- The spec's scenario: latencies `50ms, 150ms, 250ms, 90ms`. -/
def scenarioRecords : List Result :=
  [withLatency 50000000, withLatency 150000000, withLatency 250000000,
   withLatency 90000000]

/-- A value that starts with `[` and ends with `]`. -/
def Enclosed (value : GoString) : Prop :=
  value.head? = some '[' ∧ value.getLast? = some ']'

/-- A stand-in for `strings.TrimSpace` in the examples: it removes the blanks at both
ends. -/
def sampleTrim (s : GoString) : GoString :=
  ((s.dropWhile (· = ' ')).reverse.dropWhile (· = ' ')).reverse

/-- A stand-in for `time.ParseDuration` in the examples: it knows the literals `0`,
`100ms` and `200ms` and rejects everything else. -/
def sampleParse (s : GoString) : Except GoError Duration :=
  if s = "0".toList then Except.ok 0
  else if s = "100ms".toList then Except.ok 100000000
  else if s = "200ms".toList then Except.ok 200000000
  else Except.error (GoError.parse 0)

/-- A record whose error text holds a quote, a line break and what looks like a
second row. -/
def quotedError : Result :=
  { Timestamp := 1, Code := 0, Latency := 5, BytesOut := 0, BytesIn := 0,
    Error := "a\"\n2,0,5,0,0,\"b".toList }

/-- The first of the two records that `quotedError` is dumped like. -/
def plainFirst : Result :=
  { Timestamp := 1, Code := 0, Latency := 5, BytesOut := 0, BytesIn := 0,
    Error := "a".toList }

/-- The second of the two records that `quotedError` is dumped like. -/
def plainSecond : Result :=
  { Timestamp := 2, Code := 0, Latency := 5, BytesOut := 0, BytesIn := 0,
    Error := "b".toList }

/-- A `file` helper that opens every name. -/
def openAny (_name : GoString) (_create : Bool) : Option GoError := none

/-- Folding records into an aggregate with `update`, one after the other; a panic
ends the run. -/
def foldUpdate {α : Type} (update : α → Result → Option α) : α → List Result → Option α
  | a, [] => some a
  | a, r :: rs => (update a r).bind (fun a' => foldUpdate update a' rs)

/-- For a run of the reporter loop on `n` records under the schedule `sched`: for each
tick the loop takes, in order, the number of records decoded before it. A tick
decodes nothing; a decode uses up one record; the run is over when a decode finds no
record left. -/
def flushPoints : List Bool → Nat → List Nat
  | [], _ => []
  | true :: sched, n => 0 :: flushPoints sched n
  | false :: _, 0 => []
  | false :: sched, n + 1 => (flushPoints sched n).map (· + 1)

/-- The rows of a snapshot of `h` after the rows for `counts`, from index `i` on. -/
def rowsFrom (h : Histogram) : List Nat → Nat → List HistRow
  | [], _ => []
  | count :: counts, i =>
    { lo := h.Buckets.getD i 0, hi := h.Buckets[i + 1]?, count := count, total := h.Total }
      :: rowsFrom h counts (i + 1)

/-- The rows of a snapshot of `h`: one per count, with the bucket's bounds, the count
and the total. -/
def histRows (h : Histogram) : List HistRow := rowsFrom h h.Counts 0

/-- The spec's scenario as a decoder: the four records, then the end of the stream. -/
def scenarioFeed : Feed := { records := scenarioRecords, final := GoError.EOF }

/-- A schedule: one decode, a tick, two decodes, a tick, and no tick afterwards. -/
def scenarioSched : List Bool := [false, true, false, false, true]

/-- A stand-in for `int(ratio*75)` in the examples, as amd64 computes it: with
`total = 0` the ratio is NaN or +Inf and the conversion gives the most negative `int`;
otherwise the value is the quotient `75 * count / total` (floating-point rounding may
miss it by one; the loop uses the sign only). -/
def barLenAmd64 (count total : Nat) : Int :=
  if total = 0 then -9223372036854775808 else Int.ofNat (75 * count / total)

/-- A schedule that takes a tick before the first decode. -/
def tickFirstSched : List Bool := [true, false, true]

/-- A stand-in for `Metrics.Update` in the examples: the metrics are the number of
requests alone. -/
def countRequests (m : Nat) (_r : Result) : Nat := m + 1

/-! ## Properties of the histogram -/

theorem bucketLoop_lt (bs : Buckets) (L : Duration) (i : Nat) (hne : bs ≠ []) :
    bucketLoop bs L i < i + bs.length := by
  induction bs generalizing i with
  | nil => exact absurd rfl hne
  | cons b rest ih =>
    cases rest with
    | nil => simp [bucketLoop]
    | cons b' rest' =>
      rw [bucketLoop]
      split
      · simp
      · have := ih (i + 1) (by simp)
        simp only [List.length_cons] at this ⊢
        omega

/-- The loop of `Update` on a strictly increasing suffix whose first boundary is at
most `L`: it stops `k` steps later, at the last boundary that is at most `L`. -/
theorem bucketLoop_spec (l : Buckets) (L : Duration) (i : Nat) (hne : l ≠ [])
    (hs : l.Pairwise (· < ·)) (h0 : l.head hne ≤ L) :
    ∃ (k : Nat) (hk : k < l.length), bucketLoop l L i = i + k ∧ l[k] ≤ L ∧
      ∀ (j : Nat) (hj : j < l.length), k < j → L < l[j] := by
  induction l generalizing i with
  | nil => exact absurd rfl hne
  | cons b rest ih =>
    cases rest with
    | nil =>
      refine ⟨0, by simp, by simp [bucketLoop], by simpa using h0, ?_⟩
      intro j hj hlt
      simp at hj
      omega
    | cons b' rest' =>
      simp only [List.head_cons] at h0
      rw [List.pairwise_cons] at hs
      obtain ⟨hb, hs'⟩ := hs
      by_cases hc : b ≤ L ∧ L < b'
      · refine ⟨0, by simp, by simp [bucketLoop, hc], by simpa using h0, ?_⟩
        intro j hj hlt
        obtain ⟨j', rfl⟩ : ∃ j', j = j' + 1 := ⟨j - 1, by omega⟩
        simp only [List.getElem_cons_succ]
        cases j' with
        | zero => simpa using hc.2
        | succ j'' =>
          simp only [List.getElem_cons_succ]
          rw [List.pairwise_cons] at hs'
          have hj2 : j'' < rest'.length := by
            simp only [List.length_cons] at hj
            omega
          exact lt_trans hc.2 (hs'.1 _ (List.getElem_mem hj2))
      · have hb' : b' ≤ L := le_of_not_lt (fun hlt => hc ⟨h0, hlt⟩)
        obtain ⟨k, hk, heq, hle, hgt⟩ := ih (i + 1) (by simp) hs' (by simpa using hb')
        refine ⟨k + 1, by simpa using hk, ?_, by simpa using hle, ?_⟩
        · rw [bucketLoop, if_neg hc, heq]
          omega
        · intro j hj hlt
          obtain ⟨j', rfl⟩ : ∃ j', j = j' + 1 := ⟨j - 1, by omega⟩
          simp only [List.getElem_cons_succ]
          exact hgt j' (by simpa using hj) (by omega)

/-- The loop of `Update` when `L` is below every boundary: no test succeeds and the
loop ends at the last index. -/
theorem bucketLoop_below (l : Buckets) (L : Duration) (i : Nat)
    (h : ∀ x ∈ l, L < x) : bucketLoop l L i = i + (l.length - 1) := by
  induction l generalizing i with
  | nil => simp [bucketLoop]
  | cons b rest ih =>
    cases rest with
    | nil => simp [bucketLoop]
    | cons b' rest' =>
      have hb : ¬ (b ≤ L ∧ L < b') := by
        intro hc
        exact absurd hc.1 (not_le.mpr (h b (by simp)))
      rw [bucketLoop, if_neg hb, ih (i + 1) (fun x hx => h x (List.mem_cons_of_mem _ hx))]
      simp only [List.length_cons]
      omega

theorem sum_set_add (l : List Nat) (i v : Nat) (hi : i < l.length) :
    (l.set i v).sum + l[i] = l.sum + v := by
  induction l generalizing i with
  | nil => simp at hi
  | cons a t ih =>
    cases i with
    | zero => simp; omega
    | succ i' =>
      have := ih i' (by simpa using hi)
      simp only [List.set_cons_succ, List.sum_cons, List.getElem_cons_succ]
      omega

theorem getElem_le_sum (l : List Nat) (i : Nat) (hi : i < l.length) : l[i] ≤ l.sum := by
  induction l generalizing i with
  | nil => simp at hi
  | cons a t ih =>
    cases i with
    | zero => simp
    | succ i' =>
      have := ih i' (by simpa using hi)
      simp only [List.sum_cons, List.getElem_cons_succ]
      omega

theorem histInv_new (bs : Buckets) : HistInv bs 0 (NewHistogram bs) := by
  constructor <;> simp [NewHistogram, u64]

theorem histInv_update (bs : Buckets) (n : Nat) (h : Histogram) (r : Result)
    (hne : bs ≠ []) (hinv : HistInv bs n h) :
    ∃ h', h.Update r = some h' ∧ HistInv bs (n + 1) h' ∧
      h'.Counts = h.Counts.set (bucketLoop bs r.Latency 0)
        ((h.Counts.getD (bucketLoop bs r.Latency 0) 0 + 1) % u64) := by
  have hlt : bucketLoop h.Buckets r.Latency 0 < h.Counts.length := by
    have := bucketLoop_lt bs r.Latency 0 hne
    rw [hinv.buckets, hinv.len]
    omega
  have hset := sum_set_add h.Counts _ ((h.Counts[bucketLoop h.Buckets r.Latency 0] + 1) % u64) hlt
  have hle := getElem_le_sum h.Counts _ hlt
  have hu : u64 = 18446744073709551616 := by norm_num [u64]
  refine ⟨{ h with
      Total := (h.Total + 1) % u64
      Counts := h.Counts.set (bucketLoop h.Buckets r.Latency 0)
        ((h.Counts[bucketLoop h.Buckets r.Latency 0] + 1) % u64) },
    by simp only [Histogram.Update, dif_pos hlt], ?_, ?_⟩
  · have h1 := hinv.total
    have h2 := hinv.summod
    have h3 := hinv.sumexact
    rw [hu] at h1 h2 h3 hset
    constructor
    · exact hinv.buckets
    · simp [hinv.len]
    · simp only [hu, h1]
      omega
    · simp only [hu]
      omega
    · intro hn
      rw [hu] at hn
      have := h3 (by omega)
      simp only [hu]
      omega
  · simp only [hinv.buckets, List.getD_eq_getElem?_getD]
    rw [hinv.buckets] at hlt
    simp [List.getElem?_eq_getElem hlt]

theorem histInv_updateAll (bs : Buckets) (rs : List Result) (n : Nat) (h : Histogram)
    (hne : bs ≠ []) (hinv : HistInv bs n h) :
    ∃ h', updateAll h rs = some h' ∧ HistInv bs (n + rs.length) h' := by
  induction rs generalizing n h with
  | nil => exact ⟨h, rfl, by simpa using hinv⟩
  | cons r rs ih =>
    obtain ⟨h1, hu, hinv1, _⟩ := histInv_update bs n h r hne hinv
    obtain ⟨h2, hu2, hinv2⟩ := ih (n + 1) h1 hinv1
    refine ⟨h2, by simp [updateAll, hu, hu2], ?_⟩
    have : n + (r :: rs).length = n + 1 + rs.length := by simp; omega
    rw [this]
    exact hinv2

theorem histInv_of_updateAll (bs : Buckets) (rs : List Result) (h : Histogram)
    (hne : bs ≠ []) (hh : updateAll (NewHistogram bs) rs = some h) :
    HistInv bs rs.length h := by
  obtain ⟨h', hu, hinv⟩ := histInv_updateAll bs rs 0 (NewHistogram bs) hne (histInv_new bs)
  rw [hh] at hu
  cases hu
  simpa using hinv

/-- What `Update` does to the counts of a histogram over `bs` reached after the
records `rs`: the count at the index where the loop stops goes up by one in `uint64`
arithmetic (exactly by one while fewer than `2^64 - 1` records came before), the other
counts stay. -/
theorem update_counts (bs : Buckets) (rs : List Result) (h : Histogram) (r : Result)
    (hne : bs ≠ []) (hh : updateAll (NewHistogram bs) rs = some h) :
    ∃ (h' : Histogram) (c : Nat), h.Update r = some h' ∧
      h.Counts[bucketLoop bs r.Latency 0]? = some c ∧
      h'.Counts[bucketLoop bs r.Latency 0]? = some ((c + 1) % u64) ∧
      (rs.length + 1 < u64 → h'.Counts[bucketLoop bs r.Latency 0]? = some (c + 1)) ∧
      (∀ j, j ≠ bucketLoop bs r.Latency 0 → h'.Counts[j]? = h.Counts[j]?) ∧
      h'.Counts.length = h.Counts.length ∧
      h'.Total = (h.Total + 1) % u64 := by
  have hinv := histInv_of_updateAll bs rs h hne hh
  obtain ⟨h', hu, hinv', hc⟩ := histInv_update bs rs.length h r hne hinv
  have hlt : bucketLoop bs r.Latency 0 < h.Counts.length := by
    have := bucketLoop_lt bs r.Latency 0 hne
    rw [hinv.len]
    omega
  have hget : h.Counts.getD (bucketLoop bs r.Latency 0) 0 = h.Counts[bucketLoop bs r.Latency 0] := by
    simp [List.getD_eq_getElem?_getD, List.getElem?_eq_getElem hlt]
  rw [hget] at hc
  have hmod : (h.Counts[bucketLoop bs r.Latency 0] + 1) % u64
      = (h.Counts[bucketLoop bs r.Latency 0]?.getD 0 + 1) % u64 := by
    simp [List.getElem?_eq_getElem hlt]
  refine ⟨h', h.Counts[bucketLoop bs r.Latency 0], hu, List.getElem?_eq_getElem hlt, ?_, ?_, ?_,
    ?_, ?_⟩
  · rw [hc]
    simp [List.getElem?_set, hlt]
  · intro hn
    have hle := getElem_le_sum h.Counts _ hlt
    have hsum := hinv.sumexact (by omega)
    rw [hc, Nat.mod_eq_of_lt (by omega)]
    simp [List.getElem?_set, hlt]
  · intro j hj
    rw [hc, List.getElem?_set_ne (Ne.symm hj)]
  · rw [hc]
    simp
  · have hT : h'.Total = (h.Total + 1) % u64 := by
      simp only [Histogram.Update, hinv.buckets, dif_pos hlt] at hu
      cases hu
      rfl
    exact hT

/-- C1. On a histogram built by `NewHistogram(bs)` for a non-empty, strictly
increasing `bs` and updated with any records `rs`, `Update` with a record whose
latency `L` is at least `bs[0]` adds one (in `uint64` arithmetic, and exactly one when
fewer than `2^64 - 1` records came before) to the count at the largest index `i` with
`bs[i] ≤ L` and leaves every other count as it was; `L = bs[k]` gives `i = k`, and
`L ≥ bs[last]` gives the last index. -/
theorem update_increments_largest_bucket (bs : Buckets) (rs : List Result)
    (h : Histogram) (r : Result) (hne : bs ≠ []) (hinc : bs.Pairwise (· < ·))
    (hh : updateAll (NewHistogram bs) rs = some h) (hL : bs.head hne ≤ r.Latency) :
    ∃ (i : Nat) (hi : i < bs.length) (h' : Histogram) (c : Nat),
      h.Update r = some h' ∧
      bs[i] ≤ r.Latency ∧
      (∀ (j : Nat) (hj : j < bs.length), bs[j] ≤ r.Latency → j ≤ i) ∧
      h.Counts[i]? = some c ∧
      h'.Counts[i]? = some ((c + 1) % u64) ∧
      (rs.length + 1 < u64 → h'.Counts[i]? = some (c + 1)) ∧
      (∀ j, j ≠ i → h'.Counts[j]? = h.Counts[j]?) ∧
      h'.Counts.length = h.Counts.length ∧
      (∀ (k : Nat) (hk : k < bs.length), r.Latency = bs[k] → i = k) ∧
      (bs.getLast hne ≤ r.Latency → i = bs.length - 1) := by
  obtain ⟨k, hk, heq, hle, hgt⟩ := bucketLoop_spec bs r.Latency 0 hne hinc hL
  obtain ⟨h', c, hu, hc, hc', hex, hoth, hlen, _⟩ := update_counts bs rs h r hne hh
  rw [Nat.zero_add] at heq
  rw [heq] at hc hc' hex hoth
  have hmax : ∀ (j : Nat) (hj : j < bs.length), bs[j] ≤ r.Latency → j ≤ k := by
    intro j hj hjl
    by_contra hcon
    exact absurd hjl (not_le.mpr (hgt j hj (by omega)))
  refine ⟨k, hk, h', c, hu, hle, hmax, hc, hc', hex, hoth, hlen, ?_, ?_⟩
  · intro m hm hLm
    have h1 : m ≤ k := hmax m hm (le_of_eq hLm.symm)
    by_contra hcon
    have hlt : m < k := by omega
    have := (List.pairwise_iff_getElem.mp hinc) m k hm hk hlt
    rw [← hLm] at this
    exact absurd hle (not_le.mpr this)
  · intro hlast
    rw [List.getLast_eq_getElem] at hlast
    have := hmax (bs.length - 1) (by omega) hlast
    omega

/-- C2. From `NewHistogram(bs)` with `bs` non-empty, applying `Update` to each record
of any finite sequence never panics (no index is out of range) and gives a histogram
with `len(Counts) = len(bs)` whose `Total` is the number of records and equals the
sum of `Counts`, both as `uint64` values; below `2^64` records the three numbers are
equal outright. -/
theorem counts_sum_eq_total (bs : Buckets) (rs : List Result) (hne : bs ≠ []) :
    ∃ h : Histogram, updateAll (NewHistogram bs) rs = some h ∧
      h.Counts.length = bs.length ∧
      h.Total = rs.length % u64 ∧
      h.Counts.sum % u64 = h.Total ∧
      (rs.length < u64 → h.Counts.sum = h.Total ∧ h.Total = rs.length) := by
  obtain ⟨h, hu, hinv⟩ := histInv_updateAll bs rs 0 (NewHistogram bs) hne (histInv_new bs)
  rw [Nat.zero_add] at hinv
  refine ⟨h, hu, hinv.len, hinv.total, ?_, ?_⟩
  · rw [hinv.summod, hinv.total]
  · intro hn
    rw [hinv.sumexact hn, hinv.total, Nat.mod_eq_of_lt hn]
    exact ⟨rfl, rfl⟩

/-- C10. On a histogram built by `NewHistogram(bs)` for a non-empty, strictly
increasing `bs` and updated with any records `rs`, `Update` with a record whose
latency `L` is below `bs[0]` (so below every boundary: `L` is in no bucket's
interval) adds one to the count of the last bucket and to `Total` (in `uint64`
arithmetic, exactly one when fewer than `2^64 - 1` records came before) and leaves the
other counts as they were. -/
theorem update_below_first_boundary (bs : Buckets) (rs : List Result) (h : Histogram)
    (r : Result) (hne : bs ≠ []) (hinc : bs.Pairwise (· < ·))
    (hh : updateAll (NewHistogram bs) rs = some h) (hL : r.Latency < bs.head hne) :
    (∀ b ∈ bs, r.Latency < b) ∧
    ∃ (h' : Histogram) (c : Nat), h.Update r = some h' ∧
      h.Counts[bs.length - 1]? = some c ∧
      h'.Counts[bs.length - 1]? = some ((c + 1) % u64) ∧
      (rs.length + 1 < u64 → h'.Counts[bs.length - 1]? = some (c + 1)) ∧
      (∀ j, j ≠ bs.length - 1 → h'.Counts[j]? = h.Counts[j]?) ∧
      h'.Total = (h.Total + 1) % u64 ∧
      (rs.length + 1 < u64 → h'.Total = h.Total + 1) := by
  have hall : ∀ b ∈ bs, r.Latency < b := by
    intro b hb
    cases bs with
    | nil => exact absurd rfl hne
    | cons b0 rest =>
      simp only [List.head_cons] at hL
      rw [List.pairwise_cons] at hinc
      rcases List.mem_cons.mp hb with rfl | hmem
      · exact hL
      · exact lt_trans hL (hinc.1 b hmem)
  have hidx := bucketLoop_below bs r.Latency 0 hall
  rw [Nat.zero_add] at hidx
  obtain ⟨h', c, hu, hc, hc', hex, hoth, _, hT⟩ := update_counts bs rs h r hne hh
  rw [hidx] at hc hc' hex hoth
  refine ⟨hall, h', c, hu, hc, hc', hex, hoth, hT, ?_⟩
  intro hn
  have hinv := histInv_of_updateAll bs rs h hne hh
  have h1 : rs.length % u64 = rs.length := Nat.mod_eq_of_lt (by omega)
  rw [hT, hinv.total, h1, Nat.mod_eq_of_lt hn]

/-- C1, at an input: boundaries `[0, 100ms, 200ms]`, three of the scenario's records
folded, then a latency of exactly `100ms`. -/
theorem update_increments_largest_bucket_witness :
    scenarioBuckets.Pairwise (· < ·) ∧
    updateAll (NewHistogram scenarioBuckets) (scenarioRecords.take 3)
      = some ⟨scenarioBuckets, [1, 1, 1], 3⟩ ∧
    Histogram.Update ⟨scenarioBuckets, [1, 1, 1], 3⟩ (withLatency 100000000)
      = some ⟨scenarioBuckets, [1, 2, 1], 4⟩ ∧
    ∃ (i : Nat) (hi : i < scenarioBuckets.length) (h' : Histogram) (c : Nat),
      Histogram.Update ⟨scenarioBuckets, [1, 1, 1], 3⟩ (withLatency 100000000) = some h' ∧
      scenarioBuckets[i] ≤ (withLatency 100000000).Latency ∧
      (∀ (j : Nat) (hj : j < scenarioBuckets.length),
        scenarioBuckets[j] ≤ (withLatency 100000000).Latency → j ≤ i) ∧
      (⟨scenarioBuckets, [1, 1, 1], 3⟩ : Histogram).Counts[i]? = some c ∧
      h'.Counts[i]? = some ((c + 1) % u64) ∧
      ((scenarioRecords.take 3).length + 1 < u64 → h'.Counts[i]? = some (c + 1)) ∧
      (∀ j, j ≠ i → h'.Counts[j]? = (⟨scenarioBuckets, [1, 1, 1], 3⟩ : Histogram).Counts[j]?) ∧
      h'.Counts.length = (⟨scenarioBuckets, [1, 1, 1], 3⟩ : Histogram).Counts.length ∧
      (∀ (k : Nat) (hk : k < scenarioBuckets.length),
        (withLatency 100000000).Latency = scenarioBuckets[k] → i = k) ∧
      (scenarioBuckets.getLast (by decide) ≤ (withLatency 100000000).Latency →
        i = scenarioBuckets.length - 1) :=
  ⟨by decide, by decide, by decide,
    update_increments_largest_bucket scenarioBuckets (scenarioRecords.take 3)
      ⟨scenarioBuckets, [1, 1, 1], 3⟩ (withLatency 100000000) (by decide) (by decide)
      (by decide) (by decide)⟩

/-- C2, at the spec's scenario: boundaries `[0, 100ms, 200ms]` and latencies `50ms,
150ms, 250ms, 90ms` give counts `[2, 1, 1]` and total `4`. -/
theorem counts_sum_eq_total_witness :
    scenarioBuckets ≠ [] ∧
    updateAll (NewHistogram scenarioBuckets) scenarioRecords
      = some ⟨scenarioBuckets, [2, 1, 1], 4⟩ ∧
    ∃ h : Histogram, updateAll (NewHistogram scenarioBuckets) scenarioRecords = some h ∧
      h.Counts.length = scenarioBuckets.length ∧
      h.Total = scenarioRecords.length % u64 ∧
      h.Counts.sum % u64 = h.Total ∧
      (scenarioRecords.length < u64 →
        h.Counts.sum = h.Total ∧ h.Total = scenarioRecords.length) :=
  ⟨by decide, by decide, counts_sum_eq_total scenarioBuckets scenarioRecords (by decide)⟩

/-- C10, at an input: boundaries `[100, 200]`, one record folded, then a latency of
`50`, which goes to the last bucket. -/
theorem update_below_first_boundary_witness :
    Histogram.Update ⟨[100, 200], [1, 0], 1⟩ (withLatency 50) = some ⟨[100, 200], [1, 1], 2⟩ ∧
    ((∀ b ∈ ([100, 200] : Buckets), (withLatency 50).Latency < b) ∧
    ∃ (h' : Histogram) (c : Nat),
      Histogram.Update ⟨[100, 200], [1, 0], 1⟩ (withLatency 50) = some h' ∧
      (⟨[100, 200], [1, 0], 1⟩ : Histogram).Counts[([100, 200] : Buckets).length - 1]? = some c ∧
      h'.Counts[([100, 200] : Buckets).length - 1]? = some ((c + 1) % u64) ∧
      (([withLatency 100] : List Result).length + 1 < u64 →
        h'.Counts[([100, 200] : Buckets).length - 1]? = some (c + 1)) ∧
      (∀ j, j ≠ ([100, 200] : Buckets).length - 1 →
        h'.Counts[j]? = (⟨[100, 200], [1, 0], 1⟩ : Histogram).Counts[j]?) ∧
      h'.Total = ((⟨[100, 200], [1, 0], 1⟩ : Histogram).Total + 1) % u64 ∧
      (([withLatency 100] : List Result).length + 1 < u64 →
        h'.Total = (⟨[100, 200], [1, 0], 1⟩ : Histogram).Total + 1)) :=
  ⟨by decide, update_below_first_boundary [100, 200] [withLatency 100]
    ⟨[100, 200], [1, 0], 1⟩ (withLatency 50) (by decide) (by decide) (by decide) (by decide)⟩

/-! ## Properties of the round-robin reader -/

theorem u64_eq : u64 = 18446744073709551616 := by norm_num [u64]

theorem read_some {σ ρ : Type} (read : σ → ρ × σ) (s : RoundRobin σ) (hne : s.rs ≠ []) :
    ∃ (src : σ), s.rs[s.target]? = some src ∧
      s.Read read = some ((read src).1,
        { robin := (s.robin + 1) % u64, rs := s.rs.set s.target (read src).2 }) := by
  have hlen : ¬ s.rs.length = 0 := by
    intro h0
    exact hne (List.length_eq_zero.mp h0)
  have hlt : s.target < s.rs.length := Nat.mod_lt _ (Nat.pos_of_ne_zero hlen)
  refine ⟨s.rs[s.target], List.getElem?_eq_getElem hlt, ?_⟩
  simp only [RoundRobin.Read, dif_neg hlen, List.get_eq_getElem]

theorem reads_state {σ ρ : Type} (read : σ → ρ × σ) (k : Nat) (s : RoundRobin σ)
    (hne : s.rs ≠ []) :
    ∃ (outs : List ρ) (s' : RoundRobin σ), RoundRobin.reads read k s = some (outs, s') ∧
      outs.length = k ∧ s'.rs.length = s.rs.length ∧
      s'.robin % u64 = (s.robin + k) % u64 := by
  induction k generalizing s with
  | zero => exact ⟨[], s, rfl, rfl, rfl, rfl⟩
  | succ k ih =>
    obtain ⟨src, _, hread⟩ := read_some read s hne
    have hne1 : (s.rs.set s.target (read src).2) ≠ [] := by
      intro h0
      have := congrArg List.length h0
      simp only [List.length_set, List.length_nil] at this
      exact hne (List.length_eq_zero.mp this)
    obtain ⟨outs, s', hrs, hlen, hrl, hrob⟩ :=
      ih { robin := (s.robin + 1) % u64, rs := s.rs.set s.target (read src).2 } hne1
    refine ⟨(read src).1 :: outs, s', ?_, by simp [hlen], by simpa using hrl, ?_⟩
    · simp only [RoundRobin.reads, hread, hrs]
    · rw [hrob]
      simp only [u64_eq]
      omega

/-- C3, as amended. For `N ≥ 1` sources, after any `k` reads on the reader returned
by `RoundRobinReader`, the next `Read` call (the `k`-th, counting from zero) is
forwarded to the source with index `((k + 1) mod 2^64) mod N`, which is
`(k + 1) mod N` while `k + 1 < 2^64`: the call returns what that source's `Read`
returns and only that source advances. -/
theorem roundRobin_kth_read {σ ρ : Type} (read : σ → ρ × σ) (rs : List σ) (k : Nat)
    (hN : 1 ≤ rs.length) :
    ∃ (outs : List ρ) (s : RoundRobin σ) (src : σ),
      RoundRobin.reads read k (RoundRobinReader rs) = some (outs, s) ∧
      s.rs.length = rs.length ∧
      s.target = ((k + 1) % u64) % rs.length ∧
      (k + 1 < u64 → s.target = (k + 1) % rs.length) ∧
      s.rs[s.target]? = some src ∧
      s.Read read = some ((read src).1,
        { robin := (s.robin + 1) % u64, rs := s.rs.set s.target (read src).2 }) := by
  have hne : (RoundRobinReader rs).rs ≠ [] := by
    intro h0
    have := congrArg List.length h0
    simp only [RoundRobinReader, List.length_nil] at this
    omega
  obtain ⟨outs, s, hrs, _, hlen, hrob⟩ := reads_state read k (RoundRobinReader rs) hne
  have hne' : s.rs ≠ [] := by
    intro h0
    have := congrArg List.length h0
    rw [hlen] at this
    simp only [RoundRobinReader, List.length_nil] at this
    omega
  obtain ⟨src, hsrc, hread⟩ := read_some read s hne'
  have hlen' : s.rs.length = rs.length := by simpa [RoundRobinReader] using hlen
  have htarget : s.target = ((k + 1) % u64) % rs.length := by
    have h1 : (s.robin + 1) % u64 = (k + 1) % u64 := by
      simp only [RoundRobinReader, Nat.zero_add] at hrob
      simp only [u64_eq] at hrob ⊢
      omega
    simp only [RoundRobin.target, h1, hlen']
  refine ⟨outs, s, src, hrs, hlen', htarget, ?_, hsrc, hread⟩
  intro hk
  rw [htarget, Nat.mod_eq_of_lt hk]

/-- C3, counterexample. With the three sources `A`, `B`, `C` the first `Read` call
(`k = 0`) is forwarded to index `1`, not `0 mod 3`, and six reads are issued in the
order `B, C, A, B, C, A`. -/
theorem roundRobin_starts_at_second_source :
    (RoundRobinReader ['A', 'B', 'C']).target = 1 ∧
    (RoundRobinReader ['A', 'B', 'C']).target ≠ 0 % 3 ∧
    (RoundRobin.reads (fun c => (c, c)) 6 (RoundRobinReader ['A', 'B', 'C'])).map Prod.fst
      = some ['B', 'C', 'A', 'B', 'C', 'A'] := by
  decide

/-- C3 as amended, at an input: three sources and the read with `k = 4`. -/
theorem roundRobin_kth_read_witness :
    1 ≤ ['A', 'B', 'C'].length ∧
    ∃ (outs : List Char) (s : RoundRobin Char) (src : Char),
      RoundRobin.reads (fun c => (c, c)) 4 (RoundRobinReader ['A', 'B', 'C'])
        = some (outs, s) ∧
      s.rs.length = ['A', 'B', 'C'].length ∧
      s.target = ((4 + 1) % u64) % ['A', 'B', 'C'].length ∧
      (4 + 1 < u64 → s.target = (4 + 1) % ['A', 'B', 'C'].length) ∧
      s.rs[s.target]? = some src ∧
      s.Read (fun c => (c, c)) = some (((fun c => (c, c)) src).1,
        { robin := (s.robin + 1) % u64, rs := s.rs.set s.target ((fun c => (c, c)) src).2 }) :=
  ⟨by decide, roundRobin_kth_read (fun c => (c, c)) ['A', 'B', 'C'] 4 (by decide)⟩

/-! ## Properties of `Buckets.UnmarshalText` -/

theorem splitComma_ne_nil (s : GoString) : splitComma s ≠ [] := by
  cases s with
  | nil => simp [splitComma]
  | cons c cs =>
    rw [splitComma]
    split
    · simp
    · split <;> simp

theorem enclosed_length (value : GoString) (h : Enclosed value) : 2 ≤ value.length := by
  obtain ⟨hh, hl⟩ := h
  cases value with
  | nil => simp at hh
  | cons a t =>
    cases t with
    | nil =>
      simp only [List.head?_cons, Option.some.injEq] at hh
      simp only [List.getLast?_singleton, Option.some.injEq] at hl
      rw [hh] at hl
      exact absurd hl (by decide)
    | cons b t' => simp

theorem unmarshalLoop_fails (trimSpace : GoString → GoString)
    (parseDuration : GoString → Except GoError Duration) (vs : List GoString)
    (bs : Buckets) (h : ∃ v ∈ vs, ∀ d, parseDuration (trimSpace v) ≠ Except.ok d) :
    ∃ e, (unmarshalLoop trimSpace parseDuration vs bs).1 = some e := by
  induction vs generalizing bs with
  | nil =>
    obtain ⟨v, hv, _⟩ := h
    simp at hv
  | cons v vs ih =>
    cases hp : parseDuration (trimSpace v) with
    | error err => exact ⟨err, by simp [unmarshalLoop, hp]⟩
    | ok d =>
      simp only [unmarshalLoop, hp]
      apply ih
      obtain ⟨v', hv', hf⟩ := h
      rcases List.mem_cons.mp hv' with rfl | hmem
      · exact absurd hp (hf d)
      · exact ⟨v', hmem, hf⟩

theorem unmarshalLoop_succeeds (trimSpace : GoString → GoString)
    (parseDuration : GoString → Except GoError Duration) (vs : List GoString)
    (bs : Buckets) (h : ∀ v ∈ vs, ∃ d, parseDuration (trimSpace v) = Except.ok d) :
    ∃ ds : List Duration, unmarshalLoop trimSpace parseDuration vs bs = (none, bs ++ ds) ∧
      vs.map (fun v => parseDuration (trimSpace v)) = ds.map Except.ok := by
  induction vs generalizing bs with
  | nil => exact ⟨[], by simp [unmarshalLoop], rfl⟩
  | cons v vs ih =>
    obtain ⟨d, hd⟩ := h v (by simp)
    obtain ⟨ds, hloop, hmap⟩ := ih (bs ++ [d]) (fun v' hv' => h v' (List.mem_cons_of_mem _ hv'))
    refine ⟨d :: ds, ?_, ?_⟩
    · simp only [unmarshalLoop, hd, hloop]
      simp
    · simp [hd, hmap]

theorem unmarshalLoop_trim (trimSpace : GoString → GoString)
    (parseDuration : GoString → Except GoError Duration) (vs vs' : List GoString)
    (bs : Buckets) (h : vs.map trimSpace = vs'.map trimSpace) :
    unmarshalLoop trimSpace parseDuration vs bs
      = unmarshalLoop trimSpace parseDuration vs' bs := by
  induction vs generalizing vs' bs with
  | nil =>
    cases vs' with
    | nil => rfl
    | cons v' t' => simp at h
  | cons v t ih =>
    cases vs' with
    | nil => simp at h
    | cons v' t' =>
      simp only [List.map_cons, List.cons.injEq] at h
      obtain ⟨hv, ht⟩ := h
      simp only [unmarshalLoop, hv]
      cases parseDuration (trimSpace v') with
      | error err => rfl
      | ok d => exact ih t' (bs ++ [d]) ht

theorem unmarshalText_enclosed (trimSpace : GoString → GoString)
    (parseDuration : GoString → Except GoError Duration) (bs : Buckets) (value : GoString)
    (h : Enclosed value) :
    Buckets.UnmarshalText trimSpace parseDuration bs value =
      match unmarshalLoop trimSpace parseDuration (splitComma (inner value)) bs with
      | (some err, bs') => (some err, bs')
      | (none, bs') =>
        if bs'.length = 0 then (some (GoError.badBuckets value), bs') else (none, bs') := by
  have hlen := enclosed_length value h
  have hguard : ¬ (value.length < 2 ∨ value.head? ≠ some '[' ∨ value.getLast? ≠ some ']') := by
    intro hc
    rcases hc with h1 | h2 | h3
    · omega
    · exact h2 h.1
    · exact h3 h.2
  simp only [Buckets.UnmarshalText, if_neg hguard]

/-- C4. `Buckets.UnmarshalText` on an empty `Buckets`, for any `strings.TrimSpace` and
any `time.ParseDuration` that rejects the trimmed empty string (as Go's does): it
returns an error when the value is not enclosed in `[` and `]`, when the value is
`[]`, and when some comma-separated piece does not parse after trimming; when the
value is enclosed and every piece parses it returns `nil` and the buckets are the
parsed durations in order; and two enclosed values whose pieces agree after trimming
give the same result. -/
theorem unmarshalText_spec (trimSpace : GoString → GoString)
    (parseDuration : GoString → Except GoError Duration) (value : GoString)
    (hempty : ∀ d, parseDuration (trimSpace []) ≠ Except.ok d) :
    (¬ Enclosed value →
      ∃ e, (Buckets.UnmarshalText trimSpace parseDuration [] value).1 = some e) ∧
    (value = ['[', ']'] →
      ∃ e, (Buckets.UnmarshalText trimSpace parseDuration [] value).1 = some e) ∧
    ((∃ v ∈ splitComma (inner value), ∀ d, parseDuration (trimSpace v) ≠ Except.ok d) →
      ∃ e, (Buckets.UnmarshalText trimSpace parseDuration [] value).1 = some e) ∧
    (Enclosed value →
      (∀ v ∈ splitComma (inner value), ∃ d, parseDuration (trimSpace v) = Except.ok d) →
      ∃ ds : List Duration,
        Buckets.UnmarshalText trimSpace parseDuration [] value = (none, ds) ∧
        (splitComma (inner value)).map (fun v => parseDuration (trimSpace v))
          = ds.map Except.ok) ∧
    (∀ value' : GoString, Enclosed value → Enclosed value' →
      (splitComma (inner value)).map trimSpace = (splitComma (inner value')).map trimSpace →
      Buckets.UnmarshalText trimSpace parseDuration [] value
        = Buckets.UnmarshalText trimSpace parseDuration [] value') := by
  have hfail : (∃ v ∈ splitComma (inner value),
      ∀ d, parseDuration (trimSpace v) ≠ Except.ok d) →
      ∃ e, (Buckets.UnmarshalText trimSpace parseDuration [] value).1 = some e := by
    intro hv
    by_cases henc : Enclosed value
    · rw [unmarshalText_enclosed trimSpace parseDuration [] value henc]
      obtain ⟨e, he⟩ := unmarshalLoop_fails trimSpace parseDuration _ [] hv
      generalize unmarshalLoop trimSpace parseDuration (splitComma (inner value)) [] = res at he
      obtain ⟨err, bs'⟩ := res
      simp only at he
      subst he
      exact ⟨e, rfl⟩
    · have hguard : value.length < 2 ∨ value.head? ≠ some '[' ∨ value.getLast? ≠ some ']' := by
        by_contra hc
        simp only [not_or, not_not] at hc
        exact henc ⟨hc.2.1, hc.2.2⟩
      exact ⟨GoError.badBuckets value, by simp only [Buckets.UnmarshalText, if_pos hguard]⟩
  refine ⟨?_, ?_, hfail, ?_, ?_⟩
  · intro henc
    have hguard : value.length < 2 ∨ value.head? ≠ some '[' ∨ value.getLast? ≠ some ']' := by
      by_contra hc
      simp only [not_or, not_not] at hc
      exact henc ⟨hc.2.1, hc.2.2⟩
    exact ⟨GoError.badBuckets value, by simp only [Buckets.UnmarshalText, if_pos hguard]⟩
  · intro hv
    apply hfail
    subst hv
    exact ⟨[], by decide, hempty⟩
  · intro henc hall
    rw [unmarshalText_enclosed trimSpace parseDuration [] value henc]
    obtain ⟨ds, hloop, hmap⟩ := unmarshalLoop_succeeds trimSpace parseDuration _ [] hall
    have hlen : ds.length ≠ 0 := by
      have h1 := congrArg List.length hmap
      simp only [List.length_map] at h1
      have h2 := splitComma_ne_nil (inner value)
      intro h0
      rw [h0] at h1
      exact h2 (List.length_eq_zero.mp h1)
    refine ⟨ds, ?_, hmap⟩
    rw [hloop]
    simp only [List.nil_append, if_neg hlen]
  · intro value' henc henc' hmap
    rw [unmarshalText_enclosed trimSpace parseDuration [] value henc,
      unmarshalText_enclosed trimSpace parseDuration [] value' henc',
      unmarshalLoop_trim trimSpace parseDuration _ _ [] hmap]
    obtain ⟨ds, hloop⟩ : ∃ res, unmarshalLoop trimSpace parseDuration
        (splitComma (inner value')) [] = res := ⟨_, rfl⟩
    rw [hloop]
    obtain ⟨err, bs'⟩ := ds
    cases err with
    | some e => rfl
    | none =>
      by_cases h0 : bs'.length = 0
      · exfalso
        have hbs : bs' = [] := List.length_eq_zero.mp h0
        subst hbs
        cases hsp : splitComma (inner value') with
        | nil => exact splitComma_ne_nil _ hsp
        | cons v vs =>
          rw [hsp] at hloop
          cases hp : parseDuration (trimSpace v) with
          | error e =>
            simp only [unmarshalLoop, hp] at hloop
            cases hloop
          | ok d =>
            simp only [unmarshalLoop, hp] at hloop
            by_cases hall : ∀ v' ∈ vs, ∃ d', parseDuration (trimSpace v') = Except.ok d'
            · obtain ⟨ds', hl', _⟩ := unmarshalLoop_succeeds trimSpace parseDuration vs ([] ++ [d]) hall
              rw [hl'] at hloop
              simp only [List.nil_append, List.singleton_append, Prod.mk.injEq, true_and] at hloop
              cases hloop
            · have hex : ∃ v' ∈ vs, ∀ d', parseDuration (trimSpace v') ≠ Except.ok d' := by
                by_contra hcon
                apply hall
                intro v' hv'
                by_contra hn
                exact hcon ⟨v', hv', fun d' hd' => hn ⟨d', hd'⟩⟩
              obtain ⟨e, he⟩ := unmarshalLoop_fails trimSpace parseDuration vs ([] ++ [d]) hex
              rw [hloop] at he
              cases he
      · simp only [if_neg h0]

/-- C4, at inputs: a list with blanks around the commas and the same list without
them, the empty list, a value without brackets and a list with a bad element. -/
theorem unmarshalText_spec_witness :
    Buckets.UnmarshalText sampleTrim sampleParse [] "[0, 100ms ,200ms]".toList
      = (none, [0, 100000000, 200000000]) ∧
    Buckets.UnmarshalText sampleTrim sampleParse [] "[0,100ms,200ms]".toList
      = (none, [0, 100000000, 200000000]) ∧
    (Buckets.UnmarshalText sampleTrim sampleParse [] "[]".toList).1
      = some (GoError.parse 0) ∧
    (Buckets.UnmarshalText sampleTrim sampleParse [] "0,100ms".toList).1
      = some (GoError.badBuckets "0,100ms".toList) ∧
    (Buckets.UnmarshalText sampleTrim sampleParse [] "[0,x]".toList).1
      = some (GoError.parse 0) ∧
    ((∀ value' : GoString, Enclosed "[0, 100ms ,200ms]".toList → Enclosed value' →
      (splitComma (inner "[0, 100ms ,200ms]".toList)).map sampleTrim
        = (splitComma (inner value')).map sampleTrim →
      Buckets.UnmarshalText sampleTrim sampleParse [] "[0, 100ms ,200ms]".toList
        = Buckets.UnmarshalText sampleTrim sampleParse [] value')) :=
  ⟨by decide, by decide, by decide, by decide, by decide,
    (unmarshalText_spec sampleTrim sampleParse "[0, 100ms ,200ms]".toList
      (fun d h => absurd
        ((show sampleParse (sampleTrim []) = Except.error (GoError.parse 0) from rfl).symm.trans h)
        (by simp))).2.2.2.2⟩

/-! ## Properties of the dumpers -/

theorem csvLoop_never_failing {ω : Type} (write : ω → GoString → Option GoError × ω)
    (hw : ∀ w p, (write w p).1 = none) (rs : List Result) (final : GoError) (w : ω) :
    (csvLoop write rs final w).1 = Exit.returned (some final) := by
  induction rs generalizing w with
  | nil => rfl
  | cons r rs ih =>
    have h := hw w (csvLine r)
    rw [csvLoop]
    split
    · next err w' heq =>
      rw [heq] at h
      cases h
    · next w' heq => exact ih w'

theorem jsonLoop_never_failing {ω : Type} (enc : ω → Result → Option GoError × ω)
    (he : ∀ w r, (enc w r).1 = none) (rs : List Result) (final : GoError) (w : ω) :
    (jsonLoop enc rs final w).1 = Exit.returned (some final) := by
  induction rs generalizing w with
  | nil => rfl
  | cons r rs ih =>
    have h := he w r
    rw [jsonLoop]
    split
    · next err w' heq =>
      rw [heq] at h
      cases h
    · next w' heq => exact ih w'

/-- With a writer and an encoder that never fail, the dumpers built by `NewCSVDumper`
and `NewJSONDumper` over a decoder that yields finitely many records and then fails
return the very error the decoder ended with, whichever it is: the loops have no
test for the end of the stream. -/
theorem dumpers_return_decoder_error {ω ω' : Type} (dec : Feed)
    (write : ω → GoString → Option GoError × ω) (enc : ω' → Result → Option GoError × ω')
    (w : ω) (w' : ω') (hw : ∀ w p, (write w p).1 = none) (he : ∀ w r, (enc w r).1 = none) :
    (NewCSVDumper dec write w).1 = Exit.returned (some dec.final) ∧
    (NewJSONDumper dec enc w').1 = Exit.returned (some dec.final) ∧
    (NewCSVDumper dec write w).1 ≠ Exit.returned none ∧
    (NewJSONDumper dec enc w').1 ≠ Exit.returned none := by
  have h1 := csvLoop_never_failing write hw dec.records dec.final w
  have h2 := jsonLoop_never_failing enc he dec.records dec.final w'
  refine ⟨h1, h2, ?_, ?_⟩
  · intro hc
    rw [NewCSVDumper, h1] at hc
    cases hc
  · intro hc
    rw [NewJSONDumper, h2] at hc
    cases hc

/-- C5, the code at the failing input. On a decoder that yields two records and then
signals the end of the stream, with writers that never fail, both dumpers return the
end-of-stream error, not `nil`. -/
theorem dumpers_return_eof_not_nil :
    (NewCSVDumper ⟨[withLatency 5, withLatency 7], GoError.EOF⟩ bufferWrite []).1
      = Exit.returned (some GoError.EOF) ∧
    (NewJSONDumper ⟨[withLatency 5, withLatency 7], GoError.EOF⟩ logWrite []).1
      = Exit.returned (some GoError.EOF) ∧
    (NewCSVDumper ⟨[withLatency 5, withLatency 7], GoError.EOF⟩ bufferWrite []).1
      ≠ Exit.returned none ∧
    (NewJSONDumper ⟨[withLatency 5, withLatency 7], GoError.EOF⟩ logWrite []).1
      ≠ Exit.returned none := by
  decide

/-- C8, the code at the failing input. The dump of the single record `quotedError`
has two newline-terminated lines and is byte for byte the dump of the two records
`plainFirst`, `plainSecond`, so the records cannot be read back from it. -/
theorem csv_dump_not_injective :
    (NewCSVDumper ⟨[quotedError], GoError.EOF⟩ bufferWrite []).2
      = "1,0,5,0,0,\"a\"\n2,0,5,0,0,\"b\"\n".toList ∧
    ((NewCSVDumper ⟨[quotedError], GoError.EOF⟩ bufferWrite []).2.count '\n' = 2) ∧
    (NewCSVDumper ⟨[quotedError], GoError.EOF⟩ bufferWrite []).2
      = (NewCSVDumper ⟨[plainFirst, plainSecond], GoError.EOF⟩ bufferWrite []).2 ∧
    [quotedError] ≠ [plainFirst, plainSecond] := by
  decide

/-! ## Properties of `dump` and `report` -/

theorem openAll_openAny (fs : List GoString) : openAll openAny fs = none := by
  induction fs with
  | nil => rfl
  | cons f fs ih => simpa [openAll, openAny] using ih

/-- `dump` returns an error for every dumper other than `csv` and `json`, whatever
the `file` helper does. -/
theorem dump_unsupported (file : GoString → Bool → Option GoError)
    (dumper inputs output : GoString) (hcsv : dumper ≠ "csv".toList)
    (hjson : dumper ≠ "json".toList) :
    ∃ e, dump file dumper inputs output = Launch.error e := by
  unfold dump
  cases openAll file (splitComma inputs) with
  | some err => exact ⟨err, rfl⟩
  | none =>
    cases file output true with
    | some err => exact ⟨err, rfl⟩
    | none => exact ⟨GoError.unsupportedDumper dumper, by simp only [if_neg hcsv, if_neg hjson]⟩

/-- `report` has no `default` case: with files that open, every selector of four or
more characters whose first four are none of `text`, `json`, `plot`, `hist` ends in
the call of a `nil` reporter. -/
theorem report_falls_through (trimSpace : GoString → GoString)
    (parseDuration : GoString → Except GoError Duration)
    (reporter inputs output : GoString) (hlen : 4 ≤ reporter.length)
    (htext : reporter.take 4 ≠ "text".toList) (hjson : reporter.take 4 ≠ "json".toList)
    (hplot : reporter.take 4 ≠ "plot".toList) (hhist : reporter.take 4 ≠ "hist".toList) :
    report trimSpace parseDuration openAny reporter inputs output = Launch.nilCall := by
  have h4 : ¬ reporter.length < 4 := by omega
  simp only [report, if_neg h4, openAll_openAny, openAny, if_neg htext, if_neg hjson,
    if_neg hplot, if_neg hhist]

/-- C7, the code at the failing input. With files that open, `report` called with the
selector `abcd` (four characters, none of the four modes) ends with the panic of
calling the `nil` reporter and returns no error value; `dump` with the same selector
returns the unsupported-dumper error, and `report` with a selector shorter than four
characters returns an error. -/
theorem report_unknown_selector_panics :
    report sampleTrim sampleParse openAny "abcd".toList "stdin".toList "stdout".toList
      = Launch.nilCall ∧
    dump openAny "abcd".toList "stdin".toList "stdout".toList
      = Launch.error (GoError.unsupportedDumper "abcd".toList) ∧
    report sampleTrim sampleParse openAny "abc".toList "stdin".toList "stdout".toList
      = Launch.error (GoError.badReporter "abc".toList) := by
  decide

/-! ## Properties of the windowed reporters -/

theorem updateAll_eq_foldUpdate (h : Histogram) (rs : List Result) :
    updateAll h rs = foldUpdate Histogram.Update h rs := by
  induction rs generalizing h with
  | nil => rfl
  | cons r rs ih =>
    simp only [updateAll, foldUpdate]
    cases h.Update r with
    | none => rfl
    | some h' => exact ih h'

theorem nth_of_lt (bs : Buckets) (i : Nat) (hi : i < bs.length) :
    bs.Nth i = some (bs.getD i 0, bs[i + 1]?) := by
  simp only [Buckets.Nth, dif_pos hi]
  have h0 : bs.getD i 0 = bs[i] := by
    simp [List.getD_eq_getElem?_getD, List.getElem?_eq_getElem hi]
  by_cases h1 : i + 1 < bs.length
  · simp only [dif_pos h1, h0, List.getElem?_eq_getElem h1]
  · simp only [dif_neg h1, h0, List.getElem?_eq_none (Nat.le_of_not_lt h1)]

/-- The rows loop with a sink that never fails, when no bar length is negative: every
row is written. -/
theorem histRowsLoop_log (barLen : Nat → Nat → Int) (h : Histogram) (counts : List Nat)
    (i : Nat) (w : List HistRow) (hlen : i + counts.length ≤ h.Buckets.length)
    (hbar : ∀ c ∈ counts, 0 ≤ barLen c h.Total) :
    histRowsLoop barLen logWrite h counts i w = (none, w ++ rowsFrom h counts i) := by
  induction counts generalizing i w with
  | nil => simp [histRowsLoop, rowsFrom]
  | cons c cs ih =>
    simp only [List.length_cons] at hlen
    have hc : ¬ barLen c h.Total < 0 := not_lt.mpr (hbar c (by simp))
    rw [histRowsLoop, nth_of_lt h.Buckets i (by omega)]
    simp only [if_neg hc, logWrite]
    rw [ih (i + 1) _ (by omega) (fun c' hc' => hbar c' (List.mem_cons_of_mem _ hc'))]
    simp [rowsFrom]

theorem rowsFrom_counts (h : Histogram) (counts : List Nat) (i : Nat) :
    (rowsFrom h counts i).map HistRow.count = counts := by
  induction counts generalizing i with
  | nil => rfl
  | cons c cs ih => simp [rowsFrom, ih]

theorem mem_le_sum (l : List Nat) (c : Nat) (hc : c ∈ l) : c ≤ l.sum := by
  induction l with
  | nil => simp at hc
  | cons a t ih =>
    rcases List.mem_cons.mp hc with rfl | hmem
    · simp
    · have := ih hmem
      simp only [List.sum_cons]
      omega

/-- The loop once no tick arrives any more, `I m a` being what is known of the
aggregate `a` when `m` records are left: it returns the decoder's error and writes
nothing. -/
theorem selectLoop_drain {α ω : Type} (update : α → Result → Option α)
    (flush : α → ω → Option Exit × ω) (I : Nat → α → Prop)
    (hI : ∀ m a r, I (m + 1) a → ∃ a', update a r = some a' ∧ I m a')
    (rs : List Result) (final : GoError) (a : α) (w : ω) (ha : I rs.length a) :
    selectLoop update flush [] rs final a w = (Exit.returned (some final), w) := by
  rw [selectLoop]
  induction rs generalizing a with
  | nil => rfl
  | cons r rs ih =>
    obtain ⟨a', hu, ha'⟩ := hI rs.length a r ha
    simp only [defaultLoop, hu]
    exact ih a' ha'

/-- The reporter loop with a sink that never fails. `I m a` is what is known of the
aggregate `a` when `m` records are left, `F a` says that a flush of `a` goes through
and appends `snap a`; every update leads to an aggregate with `F`, and the loop
starts with `F` or not with a tick. Then the loop ends by returning the decoder's
error, and what was written is one `snap` per tick taken, of the aggregate folded
over the records decoded before that tick. -/
theorem selectLoop_log {α ι : Type} (update : α → Result → Option α)
    (flush : α → List ι → Option Exit × List ι) (snap : α → List ι)
    (I : Nat → α → Prop) (F : α → Prop)
    (hflush : ∀ a w, F a → flush a w = (none, w ++ snap a))
    (hI : ∀ m a r, I (m + 1) a → ∃ a', update a r = some a' ∧ I m a' ∧ F a')
    (sched : List Bool) (rs : List Result) (final : GoError) (a : α) (w : List ι)
    (ha : I rs.length a) (hstart : F a ∨ sched.head? ≠ some true) :
    ∃ aggs : List α,
      List.Forall₂ (fun k a' => foldUpdate update a (rs.take k) = some a')
        (flushPoints sched rs.length) aggs ∧
      selectLoop update flush sched rs final a w
        = (Exit.returned (some final), w ++ aggs.flatMap snap) := by
  induction sched generalizing rs a w with
  | nil =>
    refine ⟨[], ?_, ?_⟩
    · simp [flushPoints]
    · rw [selectLoop_drain update flush I
        (fun m a r h => by
          obtain ⟨a', hu, ha', _⟩ := hI m a r h
          exact ⟨a', hu, ha'⟩) rs final a w ha]
      simp
  | cons b sched ih =>
    cases b with
    | true =>
      have hF : F a := by
        rcases hstart with hF | hne
        · exact hF
        · exact absurd rfl hne
      obtain ⟨aggs, hall, hrun⟩ := ih rs a (w ++ snap a) ha (Or.inl hF)
      refine ⟨a :: aggs, ?_, ?_⟩
      · simp only [flushPoints]
        exact List.Forall₂.cons (by simp [foldUpdate]) hall
      · simp only [selectLoop, hflush a w hF, hrun]
        simp
    | false =>
      cases rs with
      | nil =>
        refine ⟨[], ?_, ?_⟩
        · simp [flushPoints]
        · simp [selectLoop]
      | cons r rs' =>
        obtain ⟨a', hu, ha', hF'⟩ := hI rs'.length a r ha
        obtain ⟨aggs, hall, hrun⟩ := ih rs' a' w ha' (Or.inl hF')
        refine ⟨aggs, ?_, ?_⟩
        · simp only [List.length_cons, flushPoints]
          rw [List.forall₂_map_left_iff]
          refine List.Forall₂.imp ?_ hall
          intro k x hk
          simp only [List.take_succ_cons, foldUpdate, hu, Option.bind_some]
          exact hk
        · simp only [selectLoop, hu, hrun]

theorem foldUpdate_total {μ : Type} (update : μ → Result → μ) (m : μ) (rs : List Result) :
    foldUpdate (fun m r => some (update m r)) m rs = some (rs.foldl update m) := by
  induction rs generalizing m with
  | nil => rfl
  | cons r rs ih => simp [foldUpdate, ih]

theorem forall₂_some_eq_map {α β : Type} (f : α → Option β) (g : α → β)
    (hfg : ∀ k, f k = some (g k)) (pts : List α) (aggs : List β)
    (h : List.Forall₂ (fun k a => f k = some a) pts aggs) : aggs = pts.map g := by
  induction h with
  | nil => rfl
  | cons hk _ ih =>
    rw [hfg] at hk
    cases hk
    simp [ih]

theorem flatMap_singleton {α : Type} (l : List α) : l.flatMap (fun m => [m]) = l := by
  induction l with
  | nil => rfl
  | cons a t ih => simp [List.flatMap_cons, ih]

theorem forall₂_exists_left {α β : Type} (R : α → β → Prop) (l₁ : List α) (l₂ : List β)
    (h : List.Forall₂ R l₁ l₂) (b : β) (hb : b ∈ l₂) : ∃ a ∈ l₁, R a b := by
  induction h with
  | nil => simp at hb
  | cons hk _ ih =>
    rcases List.mem_cons.mp hb with rfl | hmem
    · exact ⟨_, by simp, hk⟩
    · obtain ⟨a, ha, hr⟩ := ih hmem
      exact ⟨a, List.mem_cons_of_mem _ ha, hr⟩

theorem flushPoints_le (sched : List Bool) (n : Nat) : ∀ k ∈ flushPoints sched n, k ≤ n := by
  induction sched generalizing n with
  | nil => simp [flushPoints]
  | cons b sched ih =>
    cases b with
    | true =>
      intro k hk
      simp only [flushPoints, List.mem_cons] at hk
      rcases hk with rfl | hk
      · omega
      · exact ih n k hk
    | false =>
      cases n with
      | zero => simp [flushPoints]
      | succ n =>
        intro k hk
        simp only [flushPoints, List.mem_map] at hk
        obtain ⟨k', hk', rfl⟩ := hk
        have := ih n k' hk'
        omega

theorem flushPoints_length_le (sched : List Bool) (n : Nat) :
    (flushPoints sched n).length ≤ sched.count true := by
  induction sched generalizing n with
  | nil => simp [flushPoints]
  | cons b sched ih =>
    cases b with
    | true =>
      have := ih n
      simp only [flushPoints, List.length_cons, List.count_cons_self]
      omega
    | false =>
      cases n with
      | zero => simp [flushPoints]
      | succ n =>
        have := ih n
        simpa [flushPoints] using this

theorem barLenAmd64_nonneg (c t : Nat) (ht : 0 < t) (_hc : c ≤ t) : 0 ≤ barLenAmd64 c t := by
  have h0 : ¬ t = 0 := by omega
  simp only [barLenAmd64, if_neg h0]
  exact Int.ofNat_nonneg _

/-- The histogram reporter with a sink that never fails, over a non-empty `bs` and
fewer than `2^64` records, when the bar length is not negative for counts within a
positive total, and the run starts with a decode or the bar length of an empty
histogram is not negative: it returns the decoder's error, and what it wrote is,
tick after tick, the rows of the histogram folded over the records decoded before
the tick. -/
theorem histogramReporter_log (barLen : Nat → Nat → Int) (bs : Buckets) (dec : Feed)
    (sched : List Bool) (hne : bs ≠ []) (hlen : dec.records.length < u64)
    (hpos : ∀ c t, 0 < t → c ≤ t → 0 ≤ barLen c t)
    (hstart : 0 ≤ barLen 0 0 ∨ sched.head? ≠ some true) :
    ∃ hs : List Histogram,
      List.Forall₂
        (fun k h => updateAll (NewHistogram bs) (dec.records.take k) = some h)
        (flushPoints sched dec.records.length) hs ∧
      NewHistogramReporter barLen dec bs sched logWrite []
        = (Exit.returned (some dec.final), hs.flatMap histRows) := by
  obtain ⟨hs, hall, hrun⟩ := selectLoop_log Histogram.Update (histFlush barLen logWrite)
    histRows
    (fun m h => ∃ n, HistInv bs n h ∧ n + m < u64)
    (fun h => h.Counts.length ≤ h.Buckets.length ∧ ∀ c ∈ h.Counts, 0 ≤ barLen c h.Total)
    (by
      intro h w hF
      simp only [histFlush, histRows]
      exact histRowsLoop_log barLen h h.Counts 0 w (by omega) hF.2)
    (by
      intro m h r hinv
      obtain ⟨n, hinv, hn⟩ := hinv
      obtain ⟨h', hu, hinv', _⟩ := histInv_update bs n h r hne hinv
      refine ⟨h', hu, ⟨n + 1, hinv', by omega⟩, ?_, ?_⟩
      · rw [hinv'.len, hinv'.buckets]
      · intro c hc
        have hsum := hinv'.sumexact (by omega)
        have hle := mem_le_sum h'.Counts c hc
        have hT : h'.Total = n + 1 := by
          rw [hinv'.total]
          exact Nat.mod_eq_of_lt (by omega)
        rw [hT]
        exact hpos c (n + 1) (by omega) (by omega))
    sched dec.records dec.final (NewHistogram bs) []
    ⟨0, histInv_new bs, by omega⟩
    (by
      rcases hstart with h0 | hs
      · left
        refine ⟨by simp [NewHistogram], ?_⟩
        intro c hc
        simp only [NewHistogram] at hc ⊢
        rw [List.eq_of_mem_replicate hc]
        exact h0
      · exact Or.inr hs)
  refine ⟨hs, ?_, ?_⟩
  · refine List.Forall₂.imp ?_ hall
    intro k h hk
    rw [updateAll_eq_foldUpdate]
    exact hk
  · simpa [NewHistogramReporter] using hrun

/-- The histogram reporter over a non-empty `bs` when the schedule starts with a tick
and the bar length of an empty histogram is negative: the first row's
`strings.Repeat` panics and nothing has been written. -/
theorem histogramReporter_first_tick_panics {ω : Type} (barLen : Nat → Nat → Int)
    (bs : Buckets) (dec : Feed) (sched : List Bool)
    (write : ω → HistRow → Option GoError × ω) (w : ω) (hne : bs ≠ [])
    (hneg : barLen 0 0 < 0) (hfirst : sched.head? = some true) :
    NewHistogramReporter barLen dec bs sched write w = (Exit.panicked, w) := by
  cases sched with
  | nil => simp at hfirst
  | cons b rest =>
    simp only [List.head?_cons, Option.some.injEq] at hfirst
    subst hfirst
    cases bs with
    | nil => exact absurd rfl hne
    | cons b0 bs' =>
      have hnth : Buckets.Nth (b0 :: bs') 0 = some (b0, bs'[0]?) := by
        have := nth_of_lt (b0 :: bs') 0 (by simp)
        simpa using this
      simp only [NewHistogramReporter, selectLoop, histFlush, NewHistogram,
        List.length_cons, List.replicate_succ, histRowsLoop, hnth, if_pos hneg]

/-- The metrics reporters with a sink that never fails: they return the decoder's
error, and what they wrote is, tick after tick, the metrics folded over the records
decoded before the tick. -/
theorem metricsLoop_log {μ : Type} (m0 : μ) (update : μ → Result → μ) (dec : Feed)
    (sched : List Bool) :
    selectLoop (fun m r => some (update m r)) (metricsFlush logWrite) sched dec.records
        dec.final m0 []
      = (Exit.returned (some dec.final),
          (flushPoints sched dec.records.length).map
            (fun k => (dec.records.take k).foldl update m0)) := by
  obtain ⟨aggs, hall, hrun⟩ := selectLoop_log (fun m r => some (update m r))
    (metricsFlush logWrite) (fun m => [m]) (fun _ _ => True) (fun _ => True)
    (by intro m w _; rfl)
    (by intro _ m r _; exact ⟨update m r, rfl, trivial, trivial⟩)
    sched dec.records dec.final m0 [] trivial (Or.inl trivial)
  have haggs := forall₂_some_eq_map
    (fun k => foldUpdate (fun m r => some (update m r)) m0 (dec.records.take k))
    (fun k => (dec.records.take k).foldl update m0)
    (fun k => foldUpdate_total update m0 _) _ _ hall
  rw [hrun, flatMap_singleton, haggs]
  rfl

/-- C9. In `NewHistogramReporter` over a non-empty `bs`, for every schedule of ticks
and every finite feed of fewer than `2^64` records, writing to a sink that keeps the
rows, the bar length being any function that is not negative for a count within a
positive total: the rows written are, flush after flush, the rows of the histogram
obtained from `NewHistogram(bs)` by folding with `Update` exactly the records decoded
before that flush, counted from the first record of the run, and the counts in the
rows of a histogram are its `Counts`. The one run that writes no flush at all is the
one whose first step is a tick while the bar length of the empty histogram is
negative (as on amd64): `strings.Repeat` panics there before anything is written. -/
theorem histogram_flush_covers_history (barLen : Nat → Nat → Int) (bs : Buckets)
    (dec : Feed) (sched : List Bool) (hne : bs ≠ []) (hlen : dec.records.length < u64)
    (hpos : ∀ c t, 0 < t → c ≤ t → 0 ≤ barLen c t) :
    (¬ (barLen 0 0 < 0 ∧ sched.head? = some true) →
      ∃ hs : List Histogram,
        List.Forall₂
          (fun k h => updateAll (NewHistogram bs) (dec.records.take k) = some h)
          (flushPoints sched dec.records.length) hs ∧
        (NewHistogramReporter barLen dec bs sched logWrite []).2 = hs.flatMap histRows ∧
        ∀ h ∈ hs, (histRows h).length = bs.length) ∧
    (barLen 0 0 < 0 ∧ sched.head? = some true →
      NewHistogramReporter barLen dec bs sched logWrite [] = (Exit.panicked, [])) ∧
    (∀ h : Histogram, (histRows h).map HistRow.count = h.Counts) ∧
    (∀ k ∈ flushPoints sched dec.records.length, k ≤ dec.records.length) := by
  refine ⟨?_, ?_, fun h => rowsFrom_counts h h.Counts 0,
    flushPoints_le sched dec.records.length⟩
  · intro hnp
    have hstart : 0 ≤ barLen 0 0 ∨ sched.head? ≠ some true := by
      by_cases h0 : barLen 0 0 < 0
      · exact Or.inr (fun hh => hnp ⟨h0, hh⟩)
      · exact Or.inl (not_lt.mp h0)
    obtain ⟨hs, hall, hrun⟩ := histogramReporter_log barLen bs dec sched hne hlen hpos hstart
    refine ⟨hs, hall, by rw [hrun], ?_⟩
    intro h hh
    have hl : (histRows h).length = h.Counts.length := by
      have := congrArg List.length (rowsFrom_counts h h.Counts 0)
      simpa [histRows] using this
    obtain ⟨k, _, hk⟩ := forall₂_exists_left _ _ _ hall h hh
    rw [hl, (histInv_of_updateAll bs _ h hne hk).len]
  · intro hp
    exact histogramReporter_first_tick_panics barLen bs dec sched logWrite [] hne hp.1 hp.2

/-- C9, at the spec's scenario: under `scenarioSched` the two flushes come after one
and after three records; under `tickFirstSched`, with the amd64 bar length, the run
panics at its first tick and nothing is written. -/
theorem histogram_flush_covers_history_witness :
    scenarioBuckets ≠ [] ∧
    scenarioFeed.records.length < u64 ∧
    flushPoints scenarioSched scenarioFeed.records.length = [1, 3] ∧
    (NewHistogramReporter barLenAmd64 scenarioFeed scenarioBuckets scenarioSched
        logWrite []).2
      = [⟨0, some 100000000, 1, 1⟩, ⟨100000000, some 200000000, 0, 1⟩,
         ⟨200000000, none, 0, 1⟩,
         ⟨0, some 100000000, 1, 3⟩, ⟨100000000, some 200000000, 1, 3⟩,
         ⟨200000000, none, 1, 3⟩] ∧
    (∃ hs : List Histogram,
      List.Forall₂
        (fun k h => updateAll (NewHistogram scenarioBuckets) (scenarioFeed.records.take k)
          = some h)
        (flushPoints scenarioSched scenarioFeed.records.length) hs ∧
      (NewHistogramReporter barLenAmd64 scenarioFeed scenarioBuckets scenarioSched
          logWrite []).2 = hs.flatMap histRows ∧
      ∀ h ∈ hs, (histRows h).length = scenarioBuckets.length) ∧
    NewHistogramReporter barLenAmd64 scenarioFeed scenarioBuckets tickFirstSched
        logWrite ([] : List HistRow) = (Exit.panicked, []) :=
  ⟨by decide, by decide, by decide, by decide,
    (histogram_flush_covers_history barLenAmd64 scenarioBuckets scenarioFeed scenarioSched
      (by decide) (by decide) barLenAmd64_nonneg).1 (by decide),
    (histogram_flush_covers_history barLenAmd64 scenarioBuckets scenarioFeed tickFirstSched
      (by decide) (by decide) barLenAmd64_nonneg).2.1 (by decide)⟩

/-- C6, as amended. With a sink that never fails, a non-empty `bs`, fewer than `2^64`
records and a schedule that does not start with a tick, the reporters of
`NewHistogramReporter`, `NewTextReporter` and `NewJSONReporter` write at the ticks
only: the output is one snapshot per tick taken, each of the aggregate over the
records decoded before that tick, and nothing is written when the decoder ends; there
are at most as many snapshots as ticks in the schedule. The bar length is any
function that is not negative for a count within a positive total. -/
theorem reporters_write_only_at_ticks {μ : Type} (barLen : Nat → Nat → Int) (m0 : μ)
    (update : μ → Result → μ) (bs : Buckets) (dec : Feed) (sched : List Bool)
    (hne : bs ≠ []) (hlen : dec.records.length < u64)
    (hpos : ∀ c t, 0 < t → c ≤ t → 0 ≤ barLen c t)
    (hfirst : sched.head? ≠ some true) :
    (∃ hs : List Histogram,
      List.Forall₂
        (fun k h => updateAll (NewHistogram bs) (dec.records.take k) = some h)
        (flushPoints sched dec.records.length) hs ∧
      (NewHistogramReporter barLen dec bs sched logWrite []).2 = hs.flatMap histRows) ∧
    (NewTextReporter m0 update dec sched logWrite []).2
      = (flushPoints sched dec.records.length).map
          (fun k => (dec.records.take k).foldl update m0) ∧
    (NewJSONReporter m0 update dec sched logWrite []).2
      = (flushPoints sched dec.records.length).map
          (fun k => (dec.records.take k).foldl update m0) ∧
    (flushPoints sched dec.records.length).length ≤ sched.count true := by
  obtain ⟨hs, hall, hrun⟩ :=
    histogramReporter_log barLen bs dec sched hne hlen hpos (Or.inr hfirst)
  have hm := metricsLoop_log m0 update dec sched
  refine ⟨⟨hs, hall, by rw [hrun]⟩, ?_, ?_, flushPoints_length_le sched dec.records.length⟩
  · simp only [NewTextReporter, hm]
  · simp only [NewJSONReporter, hm]

/-- C6, counterexample. On the scenario's four records followed by the end of the
stream: without a tick nothing at all is written by any of the three reporters; with
the schedule `scenarioSched` the last snapshot written is the one of the second tick,
which covers three records (total 3, counts 1, 1, 1), while the aggregate over all
four records has total 4 and counts 2, 1, 1. -/
theorem reporters_write_no_final_snapshot :
    (NewHistogramReporter barLenAmd64 scenarioFeed scenarioBuckets [] logWrite []).2 = [] ∧
    (NewTextReporter 0 countRequests scenarioFeed [] logWrite []).2 = [] ∧
    (NewJSONReporter 0 countRequests scenarioFeed [] logWrite []).2 = [] ∧
    (NewHistogramReporter barLenAmd64 scenarioFeed scenarioBuckets scenarioSched
        logWrite []).2.getLast? = some ⟨200000000, none, 1, 3⟩ ∧
    (NewTextReporter 0 countRequests scenarioFeed scenarioSched logWrite []).2 = [1, 3] ∧
    (NewJSONReporter 0 countRequests scenarioFeed scenarioSched logWrite []).2 = [1, 3] ∧
    updateAll (NewHistogram scenarioBuckets) scenarioFeed.records
      = some ⟨scenarioBuckets, [2, 1, 1], 4⟩ ∧
    scenarioFeed.records.foldl countRequests 0 = 4 := by
  decide

/-- C6 as amended, at the spec's scenario under `scenarioSched`. -/
theorem reporters_write_only_at_ticks_witness :
    scenarioBuckets ≠ [] ∧
    scenarioFeed.records.length < u64 ∧
    scenarioSched.head? ≠ some true ∧
    ((∃ hs : List Histogram,
      List.Forall₂
        (fun k h => updateAll (NewHistogram scenarioBuckets) (scenarioFeed.records.take k)
          = some h)
        (flushPoints scenarioSched scenarioFeed.records.length) hs ∧
      (NewHistogramReporter barLenAmd64 scenarioFeed scenarioBuckets scenarioSched
          logWrite []).2 = hs.flatMap histRows) ∧
    (NewTextReporter 0 countRequests scenarioFeed scenarioSched logWrite []).2
      = (flushPoints scenarioSched scenarioFeed.records.length).map
          (fun k => (scenarioFeed.records.take k).foldl countRequests 0) ∧
    (NewJSONReporter 0 countRequests scenarioFeed scenarioSched logWrite []).2
      = (flushPoints scenarioSched scenarioFeed.records.length).map
          (fun k => (scenarioFeed.records.take k).foldl countRequests 0) ∧
    (flushPoints scenarioSched scenarioFeed.records.length).length
      ≤ scenarioSched.count true) :=
  ⟨by decide, by decide, by decide,
    reporters_write_only_at_ticks barLenAmd64 0 countRequests scenarioBuckets scenarioFeed
      scenarioSched (by decide) (by decide) barLenAmd64_nonneg (by decide)⟩

end Vegeta
